import Mathlib

/-!
Verification development for the MCP resource servers of this repository.

Two Python servers are embedded shallowly:

* `src/chapter03/resource-server/python/server.py` — the static/templated
  resolver (`readResource`, `get_user_preferences`, `get_project_settings`).
* `src/chapter03/filesystem-server/python/server.py` — the filesystem-backed
  resolver (`get_mime_type`, `is_text_mime_type`, `format_file_size`,
  `fsListResources`, `fsReadResource`).

Modelling conventions:

* Python strings become Lean `String`; `str.split("/")`, `str.startswith`,
  `str.endswith` are modelled by `splitOnSlash`, `strStartsWith`,
  `strEndsWith`, written over `List Char` so their behaviour is fully
  specified and provable.
* Python `str.lower()` is modelled by `pyLower`: the ASCII `A`-`Z` shift
  plus U+212A KELVIN SIGN → `k`, the one non-ASCII code point whose
  CPython lowercase is a single ASCII character.  Every other code
  point's `str.lower()` image is either the code point itself or a
  sequence containing a non-ASCII character, so for every input string a
  CPython-lowered string equals a pure-ASCII key exactly when its
  `pyLower` image does.  All branch conditions of the embedded resolvers
  compare lowered identifiers or extensions against pure-ASCII keys
  (`alice`, `bob`, `frontend`, `backend`, `mobile`, and the extension
  table), so the embedding's control flow coincides with the program's
  on every input.  (Lean's own `String.toLower` is avoided because its
  `mapAux` does not reduce in the kernel.)
* The filesystem is a list of regular files, each an absolute POSIX path
  (list of components, implicitly rooted at `/`) plus raw bytes
  (`List Nat`, each `< 256`).  `pathlib.Path.resolve()` on a
  symlink-free POSIX tree is the lexical normalization `normPath`
  (drop empty and `.` components, let `..` pop one component).
* Python `float` arithmetic inside `format_file_size` divides by 1024 only,
  which is exact in binary floating point for sizes below 2^53; it is
  modelled by exact dyadic-rational arithmetic (numerator over `2^(10*k)`)
  together with round-half-even decimal formatting, which coincides with
  CPython's `"%.1f"` formatting on those exact dyadic values.
* `bytes.decode("utf-8")` / `read_text(encoding="utf-8")` are modelled by
  the strict UTF-8 decoder `utf8Decode` (rejects lone continuation bytes,
  overlong forms, surrogates and values above U+10FFFF, as CPython does).
* `base64.b64encode` is modelled by `b64encode`; all exceptions raised by
  the handlers are modelled by `Except` with an error taxonomy mirroring
  the distinct raise sites (the source raises `ValueError` everywhere and
  distinguishes the cases only by message text; in particular the
  access-denied `ValueError` is re-raised by the surrounding
  `except Exception` block with an `Invalid path:` message prefix, but it
  still originates from — and only from — the traversal-guard branch,
  which is what `FsErr.accessDenied` marks).
-/

namespace MCPResources

/-! ## Character-list string primitives (models of Python str operations) -/

/-- Boolean prefix test on lists (model of `str.startswith` after
`String.data`, and of component-wise directory containment). -/
def listPrefB {α : Type} [DecidableEq α] : List α → List α → Bool
  | [], _ => true
  | _ :: _, [] => false
  | p :: ps, c :: cs => p = c && listPrefB ps cs

/-- Model of Python `s.startswith(p)`. -/
def strStartsWith (s p : String) : Bool := listPrefB p.data s.data

/-- Model of Python `s.endswith(p)`. -/
def strEndsWith (s p : String) : Bool := listPrefB p.data.reverse s.data.reverse

/-- Accumulator worker for `splitCh`; `cur` holds the current segment
reversed. -/
def splitChAux (sep : Char) : List Char → List Char → List (List Char)
  | cur, [] => [cur.reverse]
  | cur, c :: cs =>
    if c = sep then cur.reverse :: splitChAux sep [] cs
    else splitChAux sep (c :: cur) cs

/-- Split a character list on a separator, keeping empty segments —
exactly Python's `str.split(sep)` for a one-character separator. -/
def splitCh (sep : Char) (cs : List Char) : List (List Char) :=
  splitChAux sep [] cs

/-- Model of Python `uri.split("/")`. -/
def splitOnSlash (s : String) : List String :=
  (splitCh '/' s.data).map fun l => String.mk l

/-- Per-character model of Python `str.lower` on the code points whose
CPython lowercase is a single ASCII character: the ASCII letters `A`-`Z`
and U+212A KELVIN SIGN (which CPython lowers to `k`).  All remaining code
points lower to themselves or to a sequence containing a non-ASCII
character, so leaving them fixed preserves equality with every pure-ASCII
key; see the header note. -/
def charLower (c : Char) : Char :=
  if 'A' ≤ c ∧ c ≤ 'Z' then Char.ofNat (c.toNat + 32)
  else if c = '\u212A' then 'k'
  else c

/-- Model of Python `s.lower()`; faithful wherever the result is compared
against a pure-ASCII key, which covers every comparison the embedded
resolvers make (see the header note). -/
def pyLower (s : String) : String := String.mk (s.data.map charLower)

/-- Join path components with `/` (model of `str(PurePosixPath)` relative
part and of the URI path join in `list_resources`). -/
def joinComps : List String → String
  | [] => ""
  | [c] => c
  | c :: cs => c ++ "/" ++ joinComps cs

/-! ## JSON payloads

The templated resolver serializes Python dicts with `json.dumps(d, indent=2)`.
Payloads are flat dicts whose values are strings, booleans, or lists of
strings, modelled by association lists over `JVal`. -/

/-- JSON value shapes occurring in the templated resolver's payloads. -/
inductive JVal where
  | s (v : String)
  | b (v : Bool)
  | arr (vs : List String)
deriving DecidableEq, Repr

/-- Hex digit used by the `ensure_ascii` escapes of `json.dumps`. -/
def hexDigit (n : Nat) : Char := "0123456789abcdef".data.getD n '0'

/-- Escape of one character inside a JSON string, as produced by
`json.dumps` with its default `ensure_ascii=True`. -/
def escChar (c : Char) : List Char :=
  if c = '"' then ['\\', '"']
  else if c = '\\' then ['\\', '\\']
  else if c = '\n' then ['\\', 'n']
  else if c = '\r' then ['\\', 'r']
  else if c = '\t' then ['\\', 't']
  else if c = '\x08' then ['\\', 'b']
  else if c = '\x0c' then ['\\', 'f']
  else if c.toNat < 0x20 then
    ['\\', 'u', hexDigit (c.toNat / 4096 % 16), hexDigit (c.toNat / 256 % 16),
      hexDigit (c.toNat / 16 % 16), hexDigit (c.toNat % 16)]
  else if c.toNat < 0x7f then [c]
  else if c.toNat < 0x10000 then
    ['\\', 'u', hexDigit (c.toNat / 4096 % 16), hexDigit (c.toNat / 256 % 16),
      hexDigit (c.toNat / 16 % 16), hexDigit (c.toNat % 16)]
  else
    let m := c.toNat - 0x10000
    let hi := 0xD800 + m / 1024
    let lo := 0xDC00 + m % 1024
    ['\\', 'u', hexDigit (hi / 4096 % 16), hexDigit (hi / 256 % 16),
      hexDigit (hi / 16 % 16), hexDigit (hi % 16),
      '\\', 'u', hexDigit (lo / 4096 % 16), hexDigit (lo / 256 % 16),
      hexDigit (lo / 16 % 16), hexDigit (lo % 16)]

/-- JSON escaping of a whole string. -/
def jsonEscape (s : String) : String :=
  String.mk (s.data.foldr (fun c acc => escChar c ++ acc) [])

/-- A JSON string literal: quotes around the escaped content. -/
def jstr (s : String) : String := "\"" ++ jsonEscape s ++ "\""

/-- Serialization of one payload value at `indent=2` nesting depth one. -/
def jvalStr : JVal → String
  | .s v => jstr v
  | .b true => "true"
  | .b false => "false"
  | .arr [] => "[]"
  | .arr vs =>
    "[\n" ++ String.intercalate ",\n" (vs.map fun v => "    " ++ jstr v) ++ "\n  ]"

/-- Model of `json.dumps(payload, indent=2)` on a flat dict (dict order is
insertion order in Python, so the association list order is the source's
literal order). -/
def jdump (fields : List (String × JVal)) : String :=
  match fields with
  | [] => "\x7b\x7d"
  | _ =>
    "\x7b\n" ++
      String.intercalate ",\n"
        (fields.map fun kv => "  " ++ jstr kv.1 ++ ": " ++ jvalStr kv.2) ++
      "\n\x7d"

/-! ## Static/templated resource server
(`src/chapter03/resource-server/python/server.py`) -/

/-- A listed resource: `{uri, name, mimeType, description}` (§3 of the spec,
`mcp.types.Resource` in the source). -/
structure Resource where
  uri : String
  name : String
  mimeType : String
  description : String
deriving DecidableEq, Repr

/-- The only error the static/templated resolver raises:
`ValueError(f"Resource not found: {uri}")`. -/
inductive ResErr where
  | notFound (uri : String)
deriving DecidableEq, Repr

/-- Static catalog returned by `list_resources` in the resource server. -/
def staticResources : List Resource :=
  [ { uri := "docs://company/handbook"
      name := "Company Handbook"
      mimeType := "text/markdown"
      description := "The company handbook with policies and guidelines" },
    { uri := "docs://company/coding-standards"
      name := "Coding Standards"
      mimeType := "text/markdown"
      description := "The coding standards and best practices guide" },
    { uri := "docs://api/endpoints"
      name := "API Endpoints"
      mimeType := "application/json"
      description := "Documentation of available API endpoints" } ]

/-- Verbatim text served for `docs://company/handbook`. -/
def handbookText : String :=
  "# Company Handbook\n\n## Mission Statement\nWe build tools that empower developers to create better software.\n\n## Core Values\n- **Quality**: We ship code we\x27re proud of\n- **Collaboration**: We succeed as a team\n- **Transparency**: We communicate openly and honestly\n- **Growth**: We continuously learn and improve\n\n## Policies\n\n### Remote Work\nAll team members may work remotely. Core hours are 10am-3pm in your local timezone.\n\n### Code Review\nAll code changes require at least one approving review before merge.\n\n### On-Call\nEngineering teams rotate on-call responsibilities weekly.\n"

/-- Verbatim text served for `docs://company/coding-standards`. -/
def codingStandardsText : String :=
  "# Coding Standards\n\n## General Principles\n- Write self-documenting code with clear naming\n- Keep functions small and focused (< 20 lines preferred)\n- Prefer composition over inheritance\n\n## C# Specific\n- Use `var` when the type is obvious from the right side\n- Prefer `async/await` over raw `Task` continuations\n- Use records for immutable data types\n- Enable nullable reference types in all projects\n\n## Testing\n- Aim for 80%+ code coverage on business logic\n- Use descriptive test names: `MethodName_Scenario_ExpectedResult`\n- Mock external dependencies, not internal classes\n"

/-- Text served for `docs://api/endpoints`: the value of
`json.dumps(api_docs, indent=2)` on the source's `api_docs` dict. -/
def apiEndpointsText : String :=
  "\x7b\n  \"endpoints\": [\n    \x7b\n      \"path\": \"/api/users\",\n      \"method\": \"GET\",\n      \"description\": \"List all users\",\n      \"auth\": \"required\"\n    \x7d,\n    \x7b\n      \"path\": \"/api/users/\x7bid\x7d\",\n      \"method\": \"GET\",\n      \"description\": \"Get user by ID\",\n      \"auth\": \"required\"\n    \x7d,\n    \x7b\n      \"path\": \"/api/projects\",\n      \"method\": \"GET\",\n      \"description\": \"List all projects\",\n      \"auth\": \"required\"\n    \x7d\n  ]\n\x7d"

/-- Translation of `get_user_preferences(user_id)`. -/
def get_user_preferences (user_id : String) : List (String × JVal) :=
  let user_id_lower := pyLower user_id
  if user_id_lower = "alice" then
    [("theme", .s "dark"), ("language", .s "en"),
     ("notifications", .b true), ("timezone", .s "America/New_York")]
  else if user_id_lower = "bob" then
    [("theme", .s "light"), ("language", .s "es"),
     ("notifications", .b false), ("timezone", .s "Europe/Madrid")]
  else
    [("theme", .s "system"), ("language", .s "en"),
     ("notifications", .b true), ("timezone", .s "UTC")]

/-- Translation of `get_project_settings(project_id)`. -/
def get_project_settings (project_id : String) : List (String × JVal) :=
  let project_id_lower := pyLower project_id
  if project_id_lower = "frontend" then
    [("framework", .s "React"), ("buildTool", .s "Vite"),
     ("testRunner", .s "Vitest"), ("linter", .s "ESLint"),
     ("deployTarget", .s "Vercel")]
  else if project_id_lower = "backend" then
    [("framework", .s "ASP.NET Core"), ("database", .s "PostgreSQL"),
     ("cache", .s "Redis"), ("testRunner", .s "xUnit"),
     ("deployTarget", .s "Azure")]
  else if project_id_lower = "mobile" then
    [("framework", .s "MAUI"), ("platforms", .arr ["iOS", "Android"]),
     ("testRunner", .s "NUnit"), ("deployTarget", .s "App Store / Play Store")]
  else
    [("framework", .s "Unknown"),
     ("note", .s ("No configuration found for project \x27" ++ project_id ++ "\x27"))]

/-- Translation of the resource server's `read_resource(uri)` handler.
Each match arm mirrors the source's `if`/`elif` chain; the content of a
successful read is the served text (all contents are `TextContent`). -/
def readResource (uri : String) : Except ResErr String :=
  if uri = "docs://company/handbook" then
    .ok handbookText
  else if uri = "docs://company/coding-standards" then
    .ok codingStandardsText
  else if uri = "docs://api/endpoints" then
    .ok apiEndpointsText
  else if strStartsWith uri "config://user/" && strEndsWith uri "/preferences" then
    let parts := splitOnSlash uri
    if 4 ≤ parts.length then
      .ok (jdump (get_user_preferences (parts.getD 3 "")))
    else
      .error (.notFound uri)
  else if strStartsWith uri "config://project/" && strEndsWith uri "/settings" then
    let parts := splitOnSlash uri
    if 4 ≤ parts.length then
      .ok (jdump (get_project_settings (parts.getD 3 "")))
    else
      .error (.notFound uri)
  else
    .error (.notFound uri)

/-- A session of reads against the static/templated resolver: the MCP
transport delivers each `read_resource` call to the same handler, which
holds no mutable state, so a session is the list of per-call results. -/
def readSession (uris : List String) : List (Except ResErr String) :=
  uris.map readResource

/-! ## Filesystem resource server
(`src/chapter03/filesystem-server/python/server.py`) -/

/-- The fixed extension-to-MIME lookup table of `get_mime_type`. -/
def mimeTypes : List (String × String) :=
  [ (".txt", "text/plain"), (".md", "text/markdown"), (".html", "text/html"),
    (".htm", "text/html"), (".css", "text/css"), (".csv", "text/csv"),
    (".xml", "text/xml"),
    (".json", "application/json"), (".js", "application/javascript"),
    (".pdf", "application/pdf"), (".zip", "application/zip"),
    (".png", "image/png"), (".jpg", "image/jpeg"), (".jpeg", "image/jpeg"),
    (".gif", "image/gif"), (".svg", "image/svg+xml"), (".ico", "image/x-icon"),
    (".webp", "image/webp"), (".bmp", "image/bmp"),
    (".cs", "text/x-csharp"), (".py", "text/x-python"), (".ts", "text/typescript"),
    (".rs", "text/x-rust"), (".go", "text/x-go"), (".java", "text/x-java"),
    (".cpp", "text/x-c++"), (".cc", "text/x-c++"), (".cxx", "text/x-c++"),
    (".c", "text/x-c"), (".h", "text/x-c"), (".sh", "text/x-shellscript"),
    (".yaml", "text/yaml"), (".yml", "text/yaml") ]

/-- Last path component of a path string (model of `Path(file_path).name`
for the POSIX paths this development builds). -/
def lastComp (s : String) : String := (splitOnSlash s).getLast?.getD ""

/-- Model of `pathlib.PurePath.suffix` on a component name: the part of
`name` from its last dot onward, provided that dot is neither the first
nor the last character of `name` (CPython: `0 < i < len(name) - 1`). -/
def nameSuffix (name : String) : String :=
  let cs := name.data
  match (cs.reverse).findIdx? (fun c => c = '.') with
  | none => ""
  | some j =>
    if 1 ≤ j ∧ j + 1 < cs.length then String.mk ((cs.reverse.take (j + 1)).reverse)
    else ""

/-- Translation of `get_mime_type(file_path)`: lowercase the extension of
the final component and look it up in the fixed table, defaulting to
`application/octet-stream`. -/
def get_mime_type (file_path : String) : String :=
  let ext := pyLower (nameSuffix (lastComp file_path))
  (mimeTypes.lookup ext).getD "application/octet-stream"

/-- Translation of `is_text_mime_type(mime_type)`. -/
def is_text_mime_type (mime_type : String) : Bool :=
  strStartsWith mime_type "text/"
    || mime_type = "application/json"
    || mime_type = "application/javascript"
    || mime_type = "image/svg+xml"

/-- The `while` loop of `format_file_size`: repeatedly divide by 1024
while the value is at least 1024 and a larger suffix remains.  The value
after `k` steps is exactly `size / 1024^k`, so the loop condition
`size_float >= 1024` is `1024^(k+1) ≤ size`.  `fuel` bounds the iteration
count (the source's `counter < len(suffixes) - 1` makes 3 the maximum). -/
def sizeLoop : Nat → Nat → Nat → Nat
  | 0, _, counter => counter
  | fuel + 1, size, counter =>
    if 1024 ^ (counter + 1) ≤ size ∧ counter < 3 then sizeLoop fuel size (counter + 1)
    else counter

/-- Translation of `format_file_size(size)`.  After the loop the value is
the exact dyadic rational `size / 2^(10*k)`; CPython's `f"{v:.1f}"` is the
correctly rounded (round-half-even) one-decimal rendering of that value,
computed here as the round-half-even integer nearest to `10*size / 2^(10*k)`. -/
def format_file_size (size : Nat) : String :=
  let counter := sizeLoop 3 size 0
  let d := 2 ^ (10 * counter)
  let n := 10 * size
  let q0 := n / d
  let r := n % d
  let q := if d < 2 * r ∨ (2 * r = d ∧ q0 % 2 = 1) then q0 + 1 else q0
  Nat.repr (q / 10) ++ "." ++ Nat.repr (q % 10) ++ " " ++
    (["B", "KB", "MB", "GB"].getD counter "B")

/-- A regular file of the modelled POSIX filesystem: absolute path as
components below `/`, plus raw content bytes (`st_size` is the byte
count). -/
structure FsFile where
  path : List String
  bytes : List Nat
deriving DecidableEq, Repr

/-- The modelled filesystem state: the set of regular files, as a list. -/
abbrev FileSys := List FsFile

/-- Well-formedness of one actual path component as produced by `rglob`:
nonempty, not a dot entry, and containing no separator. -/
def cleanComp (c : String) : Bool :=
  c ≠ "" && c ≠ "." && c ≠ ".." && !c.data.contains '/'

/-- Well-formedness of a component list. -/
def cleanComps (l : List String) : Bool := l.all cleanComp

/-- Every file of the filesystem has a clean component path. -/
def wfFs (fs : FileSys) : Prop := ∀ f ∈ fs, cleanComps f.path = true

/-- Distinct files have distinct paths (a real directory tree). -/
def pathsNodup (fs : FileSys) : Prop := (fs.map FsFile.path).Nodup

instance (fs : FileSys) : Decidable (wfFs fs) := by
  unfold wfFs; infer_instance

instance (fs : FileSys) : Decidable (pathsNodup fs) := by
  unfold pathsNodup; infer_instance

/-- Render an absolute component path the way `str(Path(...))` does on
POSIX: a leading `/` then `/`-joined components. -/
def pathString (comps : List String) : String := "/" ++ joinComps comps

/-- Lexical path normalization: what `Path.resolve()` computes on a
symlink-free POSIX tree (also folding in `pathlib`'s parse-time dropping
of empty and `.` components).  `..` pops one component; at the root it is
a no-op, as in POSIX. -/
def normAux (acc : List String) : List String → List String
  | [] => acc
  | c :: rest =>
    if c = "" ∨ c = "." then normAux acc rest
    else if c = ".." then normAux acc.dropLast rest
    else normAux (acc ++ [c]) rest

/-- Normalize an absolute component path. -/
def normPath (comps : List String) : List String := normAux [] comps

/-- Is `p` strictly below directory `root` (component-wise)?  Used to model
which files `RESOURCE_FOLDER.rglob("*")` enumerates. -/
def underRoot (root p : List String) : Bool :=
  listPrefB root p && p ≠ root

/-- The resource built for one enumerated file in `list_resources`:
URI = scheme prefix + root-relative path with `/` separators, name = final
component, MIME from the extension table, description with the formatted
size. -/
def mkResource (root : List String) (f : FsFile) : Resource :=
  let rel := f.path.drop root.length
  { uri := "file://resources/" ++ joinComps rel
    name := f.path.getLast?.getD ""
    mimeType := get_mime_type (pathString f.path)
    description :=
      "File: " ++ joinComps rel ++ " (" ++ format_file_size f.bytes.length ++ ")" }

/-- Translation of the filesystem server's `list_resources` handler:
enumerate the regular files below the root and describe each. -/
def fsListResources (fs : FileSys) (root : List String) : List Resource :=
  (fs.filter fun f => underRoot root f.path).map (mkResource root)

/-- Error taxonomy of the filesystem `read_resource` handler, one
constructor per distinct raise site (see the header comment for how the
source's `ValueError` messages map onto these). -/
inductive FsErr where
  | missingUri
  | invalidUri (uri : String)
  | accessDenied
  | notFound (uri : String)
  | decodeError (uri : String)
deriving DecidableEq, Repr

/-- Content of a successful filesystem read: text, or a base64 blob
tagged with its MIME type. -/
inductive FsContent where
  | text (t : String)
  | blob (data : String) (mimeType : String)
deriving DecidableEq, Repr

/-! ## Base64 (model of `base64.b64encode` / `base64.b64decode`) -/

/-- The standard base64 alphabet. -/
def b64Table : List Char :=
  "ABCDEFGHIJKLMNOPQRSTUVWXYZabcdefghijklmnopqrstuvwxyz0123456789+/".data

/-- Character for a six-bit value. -/
def sext (n : Nat) : Char := b64Table.getD n 'A'

/-- Worker for `unsext`: position of a character in the alphabet. -/
def unsextAux : List Char → Nat → Char → Option Nat
  | [], _, _ => none
  | x :: xs, i, c => if x = c then some i else unsextAux xs (i + 1) c

/-- Six-bit value of an alphabet character (`none` off the alphabet,
in particular for the pad character `=`). -/
def unsext (c : Char) : Option Nat := unsextAux b64Table 0 c

/-- Base64 encoding of a byte list, with `=` padding, as
`base64.b64encode` produces. -/
def b64encodeL : List Nat → List Char
  | a :: b :: c :: rest =>
    sext (a / 4) :: sext (a % 4 * 16 + b / 16) :: sext (b % 16 * 4 + c / 64) ::
      sext (c % 64) :: b64encodeL rest
  | [a, b] => [sext (a / 4), sext (a % 4 * 16 + b / 16), sext (b % 16 * 4), '=']
  | [a] => [sext (a / 4), sext (a % 4 * 16), '=', '=']
  | [] => []

/-- Base64 decoding of a character list (groups of four characters with
optional terminal padding), as `base64.b64decode` accepts. -/
def b64decodeL : List Char → Option (List Nat)
  | [] => some []
  | c1 :: c2 :: c3 :: c4 :: rest =>
    match unsext c1, unsext c2 with
    | some v1, some v2 =>
      if c3 = '=' ∧ c4 = '=' ∧ rest = [] then
        some [v1 * 4 + v2 / 16]
      else
        match unsext c3 with
        | some v3 =>
          if c4 = '=' ∧ rest = [] then
            some [v1 * 4 + v2 / 16, v2 % 16 * 16 + v3 / 4]
          else
            match unsext c4 with
            | some v4 =>
              (b64decodeL rest).map fun tl =>
                (v1 * 4 + v2 / 16) :: (v2 % 16 * 16 + v3 / 4) :: (v3 % 4 * 64 + v4) :: tl
            | none => none
        | none => none
    | _, _ => none
  | _ => none

/-- String form of the encoder (`base64.b64encode(data).decode("ascii")`). -/
def b64encode (bytes : List Nat) : String := String.mk (b64encodeL bytes)

/-- String form of the decoder. -/
def b64decode (s : String) : Option (List Nat) := b64decodeL s.data

/-! ## Strict UTF-8 decoding (model of `bytes.decode("utf-8")`) -/

/-- Is a byte a UTF-8 continuation byte (`0x80..0xBF`)? -/
def utf8Cont (b : Nat) : Prop := 0x80 ≤ b ∧ b < 0xC0

instance (b : Nat) : Decidable (utf8Cont b) := by
  unfold utf8Cont; infer_instance

/-- Strict UTF-8 decoding to a character list: rejects stray continuation
bytes, overlong encodings, surrogate code points and values above
U+10FFFF — the cases `codecs.utf_8_decode` rejects. -/
def utf8Chars : List Nat → Option (List Char)
  | [] => some []
  | b :: rest =>
    if b < 0x80 then (utf8Chars rest).map (Char.ofNat b :: ·)
    else if b < 0xC2 then none
    else if b < 0xE0 then
      match rest with
      | b2 :: rest2 =>
        if utf8Cont b2 then
          (utf8Chars rest2).map (Char.ofNat ((b - 0xC0) * 64 + (b2 - 0x80)) :: ·)
        else none
      | _ => none
    else if b < 0xF0 then
      match rest with
      | b2 :: b3 :: rest3 =>
        let cp := (b - 0xE0) * 4096 + (b2 - 0x80) * 64 + (b3 - 0x80)
        if utf8Cont b2 ∧ utf8Cont b3 ∧ 0x800 ≤ cp ∧ ¬(0xD800 ≤ cp ∧ cp < 0xE000) then
          (utf8Chars rest3).map (Char.ofNat cp :: ·)
        else none
      | _ => none
    else if b < 0xF5 then
      match rest with
      | b2 :: b3 :: b4 :: rest4 =>
        let cp := (b - 0xF0) * 0x40000 + (b2 - 0x80) * 4096 +
          (b3 - 0x80) * 64 + (b4 - 0x80)
        if utf8Cont b2 ∧ utf8Cont b3 ∧ utf8Cont b4 ∧ 0x10000 ≤ cp ∧ cp < 0x110000 then
          (utf8Chars rest4).map (Char.ofNat cp :: ·)
        else none
      | _ => none
    else none

/-- Strict UTF-8 decoding to a string (`none` models `UnicodeDecodeError`). -/
def utf8Decode (bs : List Nat) : Option String :=
  (utf8Chars bs).map fun cs => String.mk cs

/-! ## Filesystem `read_resource` -/

/-- Lookup of the regular file at an exact absolute path. -/
def lookupFile (fs : FileSys) (p : List String) : Option FsFile :=
  fs.find? fun f => f.path = p

/-- The tail of `read_resource` once the resolved path has been mapped to
an existing file: MIME detection, text/binary classification, and the
read itself (UTF-8 text or base64 blob). -/
def serveFile (uri : String) (f : FsFile) : Except FsErr FsContent :=
  let mime_type := get_mime_type (pathString f.path)
  if is_text_mime_type mime_type then
    match utf8Decode f.bytes with
    | some t => .ok (.text t)
    | none => .error (.decodeError uri)
  else
    .ok (.blob (b64encode f.bytes) mime_type)

/-- Translation of the filesystem server's `read_resource(uri)` handler:
require the `file://resources/` prefix, join the remainder onto the root
(`pathlib` semantics: an absolute remainder replaces the root), resolve,
apply the string-prefix traversal guard, require existence, then serve. -/
def fsReadResource (fs : FileSys) (root : List String) (uri : String) :
    Except FsErr FsContent :=
  if uri = "" then .error .missingUri
  else if !strStartsWith uri "file://resources/" then .error (.invalidUri uri)
  else
    let relStr : String := String.mk (uri.data.drop 17)
    let joined :=
      if strStartsWith relStr "/" then splitOnSlash relStr
      else root ++ splitOnSlash relStr
    let file_path := normPath joined
    let root_resolved := normPath root
    if !strStartsWith (pathString file_path) (pathString root_resolved) then
      .error .accessDenied
    else
      match lookupFile fs file_path with
      | none => .error (.notFound uri)
      | some f => serveFile uri f

/-! ## General lemmas about the string primitives -/

theorem mk_data (s : String) : String.mk s.data = s := by cases s; rfl

theorem listPrefB_append {α : Type} [DecidableEq α] (p r : List α) :
    listPrefB p (p ++ r) = true := by
  induction p with
  | nil => rfl
  | cons x xs ih => simp [listPrefB, ih]

theorem eq_append_drop_of_prefB {α : Type} [DecidableEq α] (p l : List α)
    (h : listPrefB p l = true) : p ++ l.drop p.length = l := by
  induction p generalizing l with
  | nil => simp
  | cons x xs ih =>
    cases l with
    | nil => simp [listPrefB] at h
    | cons y ys =>
      simp only [listPrefB, Bool.and_eq_true, decide_eq_true_eq] at h
      obtain ⟨rfl, h2⟩ := h
      simpa using ih ys h2

theorem splitChAux_no_sep (sep : Char) (xs cur : List Char) (h : sep ∉ xs) :
    splitChAux sep cur xs = [(cur.reverse ++ xs)] := by
  induction xs generalizing cur with
  | nil => simp [splitChAux]
  | cons x t ih =>
    have hx : x ≠ sep := fun he => h (he ▸ List.mem_cons_self x t)
    have ht : sep ∉ t := fun hm => h (List.mem_cons_of_mem _ hm)
    simp [splitChAux, hx, ih [] ht, ih (x :: cur) ht]

theorem splitChAux_sep_split (sep : Char) (xs ys cur : List Char) (h : sep ∉ xs) :
    splitChAux sep cur (xs ++ sep :: ys) =
      (cur.reverse ++ xs) :: splitChAux sep [] ys := by
  induction xs generalizing cur with
  | nil => simp [splitChAux]
  | cons x t ih =>
    have hx : x ≠ sep := fun he => h (he ▸ List.mem_cons_self x t)
    have ht : sep ∉ t := fun hm => h (List.mem_cons_of_mem _ hm)
    simp [splitChAux, hx, ih (x :: cur) ht]

theorem joinComps_cons (c : String) (cs : List String) (h : cs ≠ []) :
    joinComps (c :: cs) = c ++ "/" ++ joinComps cs := by
  cases cs with
  | nil => exact absurd rfl h
  | cons y ys => rfl

theorem joinComps_append (a b : List String) (ha : a ≠ []) (hb : b ≠ []) :
    joinComps (a ++ b) = joinComps a ++ "/" ++ joinComps b := by
  induction a with
  | nil => exact absurd rfl ha
  | cons x xs ih =>
    cases xs with
    | nil =>
      cases b with
      | nil => exact absurd rfl hb
      | cons y ys => rfl
    | cons z zs =>
      have h1 : (z :: zs) ++ b ≠ [] := by simp
      have h2 : (z :: zs) ≠ ([] : List String) := by simp
      calc joinComps (x :: (z :: zs) ++ b)
          = x ++ "/" ++ joinComps ((z :: zs) ++ b) := joinComps_cons _ _ h1
        _ = x ++ "/" ++ (joinComps (z :: zs) ++ "/" ++ joinComps b) := by
            rw [ih h2]
        _ = joinComps (x :: z :: zs) ++ "/" ++ joinComps b := by
            rw [joinComps_cons _ _ h2]
            simp [String.append_assoc]

theorem splitOnSlash_join (l : List String) (hne : l ≠ [])
    (hc : ∀ c ∈ l, '/' ∉ c.data) : splitOnSlash (joinComps l) = l := by
  induction l with
  | nil => exact absurd rfl hne
  | cons c cs ih =>
    cases cs with
    | nil =>
      have h0 : '/' ∉ c.data := hc c (List.mem_cons_self c [])
      simp [splitOnSlash, splitCh, joinComps, splitChAux_no_sep '/' c.data [] h0, mk_data]
    | cons y ys =>
      have hcs : (y :: ys) ≠ ([] : List String) := by simp
      have h0 : '/' ∉ c.data := hc c (List.mem_cons_self _ _)
      have hdat : (joinComps (c :: y :: ys)).data
          = c.data ++ '/' :: (joinComps (y :: ys)).data := by
        rw [joinComps_cons c (y :: ys) hcs, String.data_append (c ++ "/"),
          String.data_append c, List.append_assoc]
        rfl
      have ihs : splitOnSlash (joinComps (y :: ys)) = y :: ys :=
        ih hcs (fun x hx => hc x (List.mem_cons_of_mem _ hx))
      unfold splitOnSlash splitCh at ihs ⊢
      rw [hdat, splitChAux_sep_split '/' c.data _ [] h0]
      simp only [List.map_cons, List.reverse_nil, List.nil_append, mk_data]
      rw [ihs]

/-! ## Lemmas about the filesystem path model -/

theorem cleanComp_spec (c : String) (h : cleanComp c = true) :
    c ≠ "" ∧ c ≠ "." ∧ c ≠ ".." ∧ '/' ∉ c.data := by
  simp [cleanComp] at h
  tauto

theorem cleanComps_mem (l : List String) (h : cleanComps l = true) :
    ∀ c ∈ l, cleanComp c = true := by
  simpa [cleanComps, List.all_eq_true] using h

theorem normAux_clean (l : List String) (h : cleanComps l = true) :
    ∀ acc, normAux acc l = acc ++ l := by
  induction l with
  | nil => intro acc; simp [normAux]
  | cons c rest ih =>
    intro acc
    have hc := cleanComp_spec c (cleanComps_mem _ h c (List.mem_cons_self _ _))
    have hrest : cleanComps rest = true := by
      simp only [cleanComps, List.all_eq_true] at h ⊢
      exact fun x hx => h x (List.mem_cons_of_mem _ hx)
    simp only [normAux, hc.1, hc.2.1, hc.2.2.1, or_self, if_false, ite_false]
    rw [ih hrest]
    simp

theorem normPath_clean (l : List String) (h : cleanComps l = true) :
    normPath l = l := by
  simpa using normAux_clean l h []

theorem pathString_prefB (root rel : List String) (hrel : rel ≠ []) :
    strStartsWith (pathString (root ++ rel)) (pathString root) = true := by
  unfold strStartsWith pathString
  rcases eq_or_ne root [] with rfl | hroot
  · have hd : ("/" ++ joinComps ([] ++ rel)).data
        = ("/" ++ joinComps ([] : List String)).data ++ (joinComps rel).data := by
      simp [String.data_append, joinComps]
    rw [hd]
    exact listPrefB_append _ _
  · rw [joinComps_append root rel hroot hrel]
    have hd : ("/" ++ (joinComps root ++ "/" ++ joinComps rel)).data
        = ("/" ++ joinComps root).data ++ ("/" ++ joinComps rel).data := by
      simp [String.data_append]
    rw [hd]
    exact listPrefB_append _ _

theorem lookupFile_self (fs : FileSys) (f : FsFile) (hf : f ∈ fs)
    (hnd : pathsNodup fs) : lookupFile fs f.path = some f := by
  induction fs with
  | nil => simp at hf
  | cons g rest ih =>
    have hnd2 : pathsNodup rest ∧ g.path ∉ rest.map FsFile.path := by
      unfold pathsNodup at hnd ⊢
      rw [List.map_cons, List.nodup_cons] at hnd
      exact ⟨hnd.2, hnd.1⟩
    by_cases hg : g.path = f.path
    · have hgf : g = f := by
        rcases List.mem_cons.mp hf with rfl | hmem
        · rfl
        · exact absurd (hg ▸ List.mem_map_of_mem FsFile.path hmem) hnd2.2
      unfold lookupFile
      rw [List.find?_cons_of_pos _ (by simp [hg])]
      rw [hgf]
    · have hmem : f ∈ rest := by
        rcases List.mem_cons.mp hf with rfl | hmem
        · exact absurd rfl hg
        · exact hmem
      unfold lookupFile at ih ⊢
      rw [List.find?_cons_of_neg _ (by simp [hg])]
      exact ih hmem hnd2.1

theorem countP_eq_one_of_unique {α : Type} (p : α → Bool) (l : List α) (a : α)
    (ha : a ∈ l) (hpa : p a = true) (hnd : l.Nodup)
    (huniq : ∀ x ∈ l, p x = true → x = a) : l.countP p = 1 := by
  induction l with
  | nil => simp at ha
  | cons x xs ih =>
    have hx_nin : x ∉ xs := (List.nodup_cons.mp hnd).1
    have hnd2 : xs.Nodup := (List.nodup_cons.mp hnd).2
    rcases List.mem_cons.mp ha with rfl | hmem
    · have hrest : xs.countP p = 0 := by
        rw [List.countP_eq_zero]
        intro y hy hpy
        exact hx_nin ((huniq y (List.mem_cons_of_mem _ hy) hpy) ▸ hy)
      rw [List.countP_cons, hrest, if_pos hpa]
    · have hpx : ¬ p x = true := by
        intro hpxt
        exact hx_nin ((huniq x (List.mem_cons_self _ _) hpxt) ▸ hmem)
      rw [List.countP_cons, if_neg hpx]
      exact ih hmem hnd2 (fun y hy hpy => huniq y (List.mem_cons_of_mem _ hy) hpy)

/-- Resolution of a well-formed listed URI: for clean components the
parse/join/normalize pipeline of `fsReadResource` lands exactly on the
absolute path `root ++ rel`, the traversal guard passes, and the call
reduces to the existence check plus `serveFile`. -/
theorem fsRead_on_join (fs : FileSys) (root rel : List String)
    (hroot : cleanComps root = true) (hrel : cleanComps rel = true) (hne : rel ≠ []) :
    fsReadResource fs root ("file://resources/" ++ joinComps rel) =
      match lookupFile fs (root ++ rel) with
      | none => .error (.notFound ("file://resources/" ++ joinComps rel))
      | some f => serveFile ("file://resources/" ++ joinComps rel) f := by
  obtain ⟨c, cs, rfl⟩ : ∃ c cs, rel = c :: cs := by
    cases rel with
    | nil => exact absurd rfl hne
    | cons c cs => exact ⟨c, cs, rfl⟩
  have hdata : ("file://resources/" ++ joinComps (c :: cs)).data
      = "file://resources/".data ++ (joinComps (c :: cs)).data :=
    String.data_append _ _
  have hne0 : ("file://resources/" ++ joinComps (c :: cs)) ≠ "" := by
    intro h
    have h3 : ("file://resources/".data ++ (joinComps (c :: cs)).data).length
        = ("".data).length := by
      rw [← hdata, h]
    rw [List.length_append] at h3
    have h4 : "file://resources/".data.length = 17 := rfl
    have h5 : ("".data).length = 0 := rfl
    omega
  have hpref : strStartsWith ("file://resources/" ++ joinComps (c :: cs))
      "file://resources/" = true := by
    unfold strStartsWith
    rw [hdata]
    exact listPrefB_append _ _
  have hdrop : String.mk (("file://resources/" ++ joinComps (c :: cs)).data.drop 17)
      = joinComps (c :: cs) := by
    rw [hdata, show (17 : Nat) = "file://resources/".data.length from rfl,
      List.drop_left, mk_data]
  have hcclean := cleanComp_spec c (cleanComps_mem _ hrel c (List.mem_cons_self _ _))
  obtain ⟨hh, ht, hcdata, hhne⟩ : ∃ h t, c.data = h :: t ∧ h ≠ '/' := by
    cases hcd : c.data with
    | nil =>
      exfalso
      apply hcclean.1
      calc c = String.mk c.data := (mk_data c).symm
        _ = String.mk [] := by rw [hcd]
        _ = "" := rfl
    | cons h t =>
      refine ⟨h, t, rfl, ?_⟩
      intro he
      exact hcclean.2.2.2 (by rw [hcd, he]; exact List.mem_cons_self _ _)
  have hjoin_head : ∃ t2, (joinComps (c :: cs)).data = hh :: t2 := by
    cases cs with
    | nil => exact ⟨ht, by simp [joinComps, hcdata]⟩
    | cons y ys =>
      refine ⟨ht ++ '/' :: (joinComps (y :: ys)).data, ?_⟩
      rw [joinComps_cons c (y :: ys) (by simp), String.data_append (c ++ "/"),
        String.data_append c, hcdata, List.append_assoc]
      rfl
  have habs : strStartsWith (joinComps (c :: cs)) "/" = false := by
    obtain ⟨t2, h2⟩ := hjoin_head
    unfold strStartsWith
    rw [h2, show "/".data = ['/'] from rfl]
    have : ('/' : Char) ≠ hh := Ne.symm hhne
    simp [listPrefB, this]
  have hsplit : splitOnSlash (joinComps (c :: cs)) = c :: cs := by
    apply splitOnSlash_join _ (by simp)
    intro x hx
    exact (cleanComp_spec x (cleanComps_mem _ hrel x hx)).2.2.2
  have hclean_all : cleanComps (root ++ c :: cs) = true := by
    unfold cleanComps at hroot hrel ⊢
    rw [List.all_append, hroot, hrel]
    rfl
  have hnorm1 : normPath (root ++ c :: cs) = root ++ c :: cs :=
    normPath_clean _ hclean_all
  have hnorm2 : normPath root = root := normPath_clean _ hroot
  have hguard : strStartsWith (pathString (root ++ c :: cs)) (pathString root)
      = true := pathString_prefB root (c :: cs) (by simp)
  unfold fsReadResource
  rw [if_neg hne0, hpref]
  simp only [Bool.not_true, Bool.false_eq_true, if_false, hdrop, habs,
    Bool.false_eq_true, if_false, hsplit, hnorm1, hnorm2, hguard, Bool.not_false,
    if_true]

/-! ## Base64 round-trip -/

theorem unsext_sext_fin : ∀ v : Fin 64, unsext (sext v.val) = some v.val := by decide

theorem unsext_sext (v : Nat) (h : v < 64) : unsext (sext v) = some v :=
  unsext_sext_fin ⟨v, h⟩

theorem sext_ne_pad_fin : ∀ v : Fin 64, sext v.val ≠ '=' := by decide

theorem sext_ne_pad (v : Nat) (h : v < 64) : sext v ≠ '=' :=
  sext_ne_pad_fin ⟨v, h⟩

theorem b64_roundtrip_len (n : Nat) :
    ∀ bs : List Nat, bs.length ≤ n → (∀ b ∈ bs, b < 256) →
      b64decodeL (b64encodeL bs) = some bs := by
  induction n with
  | zero =>
    intro bs hlen _
    have : bs = [] := List.eq_nil_of_length_eq_zero (Nat.le_zero.mp hlen)
    subst this
    rfl
  | succ n ih =>
    intro bs hlen hb
    match bs with
    | [] => rfl
    | [a] =>
      have ha : a < 256 := hb a (by simp)
      have h1 : a / 4 < 64 := by omega
      have h2 : a % 4 * 16 < 64 := by omega
      simp only [b64encodeL, b64decodeL, unsext_sext _ h1, unsext_sext _ h2]
      rw [if_pos (by simp)]
      have : a / 4 * 4 + a % 4 * 16 / 16 = a := by omega
      rw [this]
    | [a, b] =>
      have ha : a < 256 := hb a (by simp)
      have hbb : b < 256 := hb b (by simp)
      have h1 : a / 4 < 64 := by omega
      have h2 : a % 4 * 16 + b / 16 < 64 := by omega
      have h3 : b % 16 * 4 < 64 := by omega
      simp only [b64encodeL, b64decodeL, unsext_sext _ h1, unsext_sext _ h2]
      rw [if_neg (by intro hcon; exact sext_ne_pad _ h3 hcon.1)]
      simp only [unsext_sext _ h3]
      rw [if_pos (by simp)]
      have e1 : a / 4 * 4 + (a % 4 * 16 + b / 16) / 16 = a := by omega
      have e2 : (a % 4 * 16 + b / 16) % 16 * 16 + b % 16 * 4 / 4 = b := by omega
      rw [e1, e2]
    | a :: b :: c :: rest =>
      have ha : a < 256 := hb a (by simp)
      have hbb : b < 256 := hb b (by simp)
      have hc : c < 256 := hb c (by simp)
      have h1 : a / 4 < 64 := by omega
      have h2 : a % 4 * 16 + b / 16 < 64 := by omega
      have h3 : b % 16 * 4 + c / 64 < 64 := by omega
      have h4 : c % 64 < 64 := by omega
      have hlen2 : rest.length ≤ n := by
        simp only [List.length_cons] at hlen
        omega
      have hb2 : ∀ x ∈ rest, x < 256 := fun x hx =>
        hb x (by simp [hx])
      simp only [b64encodeL, b64decodeL, unsext_sext _ h1, unsext_sext _ h2]
      rw [if_neg (by intro hcon; exact sext_ne_pad _ h3 hcon.1)]
      simp only [unsext_sext _ h3]
      rw [if_neg (by intro hcon; exact sext_ne_pad _ h4 hcon.1)]
      simp only [unsext_sext _ h4]
      rw [ih rest hlen2 hb2]
      have e1 : a / 4 * 4 + (a % 4 * 16 + b / 16) / 16 = a := by omega
      have e2 : (a % 4 * 16 + b / 16) % 16 * 16 + (b % 16 * 4 + c / 64) / 4 = b := by
        omega
      have e3 : (b % 16 * 4 + c / 64) % 4 * 64 + c % 64 = c := by omega
      simp [e1, e2, e3]

theorem b64_roundtrip (bs : List Nat) (h : ∀ b ∈ bs, b < 256) :
    b64decode (b64encode bs) = some bs := by
  unfold b64decode b64encode
  show b64decodeL ((String.mk (b64encodeL bs)).data) = some bs
  exact b64_roundtrip_len bs.length bs le_rfl h

/-! ## Lemmas about the static/templated resolver on symbolic identifiers -/

theorem headI_data_append (p s : String) (hp : p.data ≠ []) :
    (p ++ s).data.headI = p.data.headI := by
  rw [String.data_append]
  cases hpd : p.data with
  | nil => exact absurd hpd hp
  | cons h t => simp

theorem uri3_ne (pre id suf q : String) (hpre : pre.data ≠ [])
    (hq : pre.data.headI ≠ q.data.headI) : pre ++ id ++ suf ≠ q := by
  intro he
  apply hq
  have h1 : (pre ++ id).data ≠ [] := by
    rw [String.data_append]
    intro hnil
    exact hpre (List.append_eq_nil.mp hnil).1
  calc pre.data.headI = (pre ++ id).data.headI := (headI_data_append pre id hpre).symm
    _ = (pre ++ id ++ suf).data.headI := (headI_data_append _ suf h1).symm
    _ = q.data.headI := by rw [he]

theorem splitOnSlash_user (id : String) (h : '/' ∉ id.data) :
    splitOnSlash ("config://user/" ++ id ++ "/preferences")
      = ["config:", "", "user", id, "preferences"] := by
  have hdata : ("config://user/" ++ id ++ "/preferences").data
      = "config:".data ++ '/' :: ([] ++ '/' :: ("user".data ++ '/' ::
          (id.data ++ '/' :: "preferences".data))) := by
    rw [String.data_append, String.data_append]
    exact rfl
  unfold splitOnSlash splitCh
  rw [hdata,
    splitChAux_sep_split '/' "config:".data _ [] (by decide),
    splitChAux_sep_split '/' [] _ [] (by simp),
    splitChAux_sep_split '/' "user".data _ [] (by decide),
    splitChAux_sep_split '/' id.data _ [] h,
    splitChAux_no_sep '/' "preferences".data [] (by decide)]
  simp [mk_data, show String.mk ([] : List Char) = "" from rfl]

theorem splitOnSlash_project (pid : String) (h : '/' ∉ pid.data) :
    splitOnSlash ("config://project/" ++ pid ++ "/settings")
      = ["config:", "", "project", pid, "settings"] := by
  have hdata : ("config://project/" ++ pid ++ "/settings").data
      = "config:".data ++ '/' :: ([] ++ '/' :: ("project".data ++ '/' ::
          (pid.data ++ '/' :: "settings".data))) := by
    rw [String.data_append, String.data_append]
    exact rfl
  unfold splitOnSlash splitCh
  rw [hdata,
    splitChAux_sep_split '/' "config:".data _ [] (by decide),
    splitChAux_sep_split '/' [] _ [] (by simp),
    splitChAux_sep_split '/' "project".data _ [] (by decide),
    splitChAux_sep_split '/' pid.data _ [] h,
    splitChAux_no_sep '/' "settings".data [] (by decide)]
  simp [mk_data, show String.mk ([] : List Char) = "" from rfl]

theorem not_ends_pref_of_settings (r : List Char) :
    listPrefB "/preferences".data.reverse ("/settings".data.reverse ++ r) = false := by
  show listPrefB ['s', 'e', 'c', 'n', 'e', 'r', 'e', 'f', 'e', 'r', 'p', '/']
      ((['s', 'g', 'n', 'i', 't', 't', 'e', 's', '/'] : List Char) ++ r) = false
  simp [listPrefB]

theorem readResource_user (id : String) (h : '/' ∉ id.data) :
    readResource ("config://user/" ++ id ++ "/preferences")
      = .ok (jdump (get_user_preferences id)) := by
  have h1 : "config://user/" ++ id ++ "/preferences" ≠ "docs://company/handbook" :=
    uri3_ne _ _ _ _ (by decide) (by decide)
  have h2 : "config://user/" ++ id ++ "/preferences"
      ≠ "docs://company/coding-standards" :=
    uri3_ne _ _ _ _ (by decide) (by decide)
  have h3 : "config://user/" ++ id ++ "/preferences" ≠ "docs://api/endpoints" :=
    uri3_ne _ _ _ _ (by decide) (by decide)
  have hsw : strStartsWith ("config://user/" ++ id ++ "/preferences")
      "config://user/" = true := by
    unfold strStartsWith
    rw [String.append_assoc, String.data_append]
    exact listPrefB_append _ _
  have hew : strEndsWith ("config://user/" ++ id ++ "/preferences")
      "/preferences" = true := by
    unfold strEndsWith
    rw [String.data_append, List.reverse_append]
    exact listPrefB_append _ _
  unfold readResource
  rw [if_neg h1, if_neg h2, if_neg h3, hsw, hew]
  simp only [Bool.and_self, if_true]
  rw [splitOnSlash_user id h]
  simp [List.getD]

theorem readResource_project (pid : String) (h : '/' ∉ pid.data) :
    readResource ("config://project/" ++ pid ++ "/settings")
      = .ok (jdump (get_project_settings pid)) := by
  have h1 : "config://project/" ++ pid ++ "/settings" ≠ "docs://company/handbook" :=
    uri3_ne _ _ _ _ (by decide) (by decide)
  have h2 : "config://project/" ++ pid ++ "/settings"
      ≠ "docs://company/coding-standards" :=
    uri3_ne _ _ _ _ (by decide) (by decide)
  have h3 : "config://project/" ++ pid ++ "/settings" ≠ "docs://api/endpoints" :=
    uri3_ne _ _ _ _ (by decide) (by decide)
  have hewF : strEndsWith ("config://project/" ++ pid ++ "/settings")
      "/preferences" = false := by
    unfold strEndsWith
    rw [String.data_append, List.reverse_append]
    exact not_ends_pref_of_settings _
  have hsw : strStartsWith ("config://project/" ++ pid ++ "/settings")
      "config://project/" = true := by
    unfold strStartsWith
    rw [String.append_assoc, String.data_append]
    exact listPrefB_append _ _
  have hew : strEndsWith ("config://project/" ++ pid ++ "/settings")
      "/settings" = true := by
    unfold strEndsWith
    rw [String.data_append, List.reverse_append]
    exact listPrefB_append _ _
  unfold readResource
  rw [if_neg h1, if_neg h2, if_neg h3, hewF, Bool.and_false]
  simp only [Bool.false_eq_true, if_false]
  rw [hsw, hew]
  simp only [Bool.and_self, if_true]
  rw [splitOnSlash_project pid h]
  simp [List.getD]

/-- Decidable equality for `Except`, so concrete resolver results can be
checked by `decide`. -/
instance {e a : Type} [DecidableEq e] [DecidableEq a] : DecidableEq (Except e a)
  | .ok x, .ok y =>
    if h : x = y then .isTrue (by rw [h]) else .isFalse (fun he => h (Except.ok.inj he))
  | .error x, .error y =>
    if h : x = y then .isTrue (by rw [h])
    else .isFalse (fun he => h (Except.error.inj he))
  | .ok _, .error _ => .isFalse (fun he => Except.noConfusion he)
  | .error _, .ok _ => .isFalse (fun he => Except.noConfusion he)

/-- Closed form of the `format_file_size` loop counter: the chosen unit
index is determined by which power-of-1024 range the size falls in. -/
theorem sizeLoop_char (n : Nat) :
    sizeLoop 3 n 0 = if n < 1024 then 0 else if n < 1024 ^ 2 then 1
      else if n < 1024 ^ 3 then 2 else 3 := by
  have e1 : sizeLoop 3 n 0
      = if 1024 ^ (0 + 1) ≤ n ∧ (0 : Nat) < 3 then sizeLoop 2 n 1 else 0 := rfl
  have e2 : sizeLoop 2 n 1
      = if 1024 ^ (1 + 1) ≤ n ∧ (1 : Nat) < 3 then sizeLoop 1 n 2 else 1 := rfl
  have e3 : sizeLoop 1 n 2
      = if 1024 ^ (2 + 1) ≤ n ∧ (2 : Nat) < 3 then sizeLoop 0 n 3 else 2 := rfl
  have e4 : sizeLoop 0 n 3 = 3 := rfl
  rw [e1, e2, e3, e4]
  norm_num
  split_ifs <;> omega

/-! ## Claims -/

/-- C1: the claim says every URI whose canonicalized path lies outside the
configured root fails with `AccessDenied` — including paths canonicalizing
into a sibling directory of the root.  The code violates this: its guard
compares string prefixes of the resolved paths, so with root `/data/root`
the URI `file://resources/../root-evil/secret.txt` resolves to
`/data/root-evil/secret.txt`, which lies outside the root
(`underRoot` is `false`) yet is served (`Except.ok`), because
`"/data/root-evil/secret.txt"` string-starts-with `"/data/root"`.  This
evaluates the embedded handler at the failing input. -/
theorem c1_path_traversal_guard_bug :
    fsReadResource [⟨["data", "root-evil", "secret.txt"], [112, 119, 110, 101, 100]⟩]
        ["data", "root"] "file://resources/../root-evil/secret.txt"
      = .ok (.text "pwned")
    ∧ normPath (["data", "root"] ++ splitOnSlash "../root-evil/secret.txt")
      = ["data", "root-evil", "secret.txt"]
    ∧ underRoot ["data", "root"] ["data", "root-evil", "secret.txt"] = false := by
  refine ⟨by decide, by decide, by decide⟩

/-- C10: the static resolver's template match is decided only by string
prefix, suffix and a `≥ 4` part count, with the identifier taken as the
fourth `/`-separated part; so `config://user/preferences` (prefix and
suffix overlapping on one separator) succeeds with identifier
`preferences` and yields the default fallback payload, and
`config://user/a/b/preferences` succeeds using only `a` as the
identifier — neither fails with `NotFound`. -/
theorem c10_template_shape_edge :
    readResource "config://user/preferences"
      = .ok (jdump (get_user_preferences "preferences"))
    ∧ (get_user_preferences "preferences").lookup "theme" = some (.s "system")
    ∧ (get_user_preferences "preferences").lookup "timezone" = some (.s "UTC")
    ∧ readResource "config://user/a/b/preferences"
      = .ok (jdump (get_user_preferences "a")) := by
  refine ⟨by decide, by decide, by decide, by decide⟩

/-- C3: for every identifier (a `/`-free string), reading
`config://user/{id}/preferences` succeeds with the serialized preference
payload for that identifier; the lookup lower-cases the identifier;
`alice` in any casing yields `theme: dark`, `bob` yields `theme: light`,
and every unrecognized identifier yields the default fallback with
`theme: system` and `timezone: UTC` rather than an error. -/
theorem c3_user_preferences_template (id : String) (h : '/' ∉ id.data) :
    readResource ("config://user/" ++ id ++ "/preferences")
      = .ok (jdump (get_user_preferences id))
    ∧ (pyLower id = "alice" →
        (get_user_preferences id).lookup "theme" = some (.s "dark"))
    ∧ (pyLower id = "bob" →
        (get_user_preferences id).lookup "theme" = some (.s "light"))
    ∧ (pyLower id ≠ "alice" → pyLower id ≠ "bob" →
        (get_user_preferences id).lookup "theme" = some (.s "system")
        ∧ (get_user_preferences id).lookup "timezone" = some (.s "UTC")) := by
  refine ⟨readResource_user id h, ?_, ?_, ?_⟩
  · intro ha
    simp [get_user_preferences, ha, List.lookup]
  · intro hb
    simp [get_user_preferences, hb, List.lookup]
  · intro ha hb
    simp [get_user_preferences, ha, hb, List.lookup]

/-- Witness for C3 at the concrete unrecognized identifier `CAROL`. -/
theorem c3_user_preferences_template_witness :
    ('/' ∉ "CAROL".data)
    ∧ (readResource ("config://user/" ++ "CAROL" ++ "/preferences")
        = .ok (jdump (get_user_preferences "CAROL"))
      ∧ (pyLower "CAROL" = "alice" →
          (get_user_preferences "CAROL").lookup "theme" = some (.s "dark"))
      ∧ (pyLower "CAROL" = "bob" →
          (get_user_preferences "CAROL").lookup "theme" = some (.s "light"))
      ∧ (pyLower "CAROL" ≠ "alice" → pyLower "CAROL" ≠ "bob" →
          (get_user_preferences "CAROL").lookup "theme" = some (.s "system")
          ∧ (get_user_preferences "CAROL").lookup "timezone" = some (.s "UTC"))) :=
  ⟨by decide, c3_user_preferences_template "CAROL" (by decide)⟩

/-- C4: reading `config://project/backend/settings` yields a payload
containing `database: PostgreSQL`; every project identifier not
recognized after lower-casing (not frontend/backend/mobile) yields a
payload consisting only of an explanatory `note` field plus a
placeholder `framework: Unknown` — no substantive fields other than the
note (every non-note field carries the value `Unknown`). -/
theorem c4_project_settings_template :
    readResource ("config://project/" ++ "backend" ++ "/settings")
      = .ok (jdump (get_project_settings "backend"))
    ∧ (get_project_settings "backend").lookup "database" = some (.s "PostgreSQL")
    ∧ ∀ pid : String, '/' ∉ pid.data →
        pyLower pid ≠ "frontend" → pyLower pid ≠ "backend" → pyLower pid ≠ "mobile" →
        readResource ("config://project/" ++ pid ++ "/settings")
          = .ok (jdump (get_project_settings pid))
        ∧ get_project_settings pid
          = [("framework", .s "Unknown"),
             ("note", .s ("No configuration found for project \x27" ++ pid ++ "\x27"))]
        ∧ ∀ kv ∈ get_project_settings pid, kv.1 = "note" ∨ kv.2 = JVal.s "Unknown" := by
  refine ⟨readResource_project "backend" (by decide), by decide, ?_⟩
  intro pid hslash h1 h2 h3
  refine ⟨readResource_project pid hslash, ?_, ?_⟩
  · simp [get_project_settings, h1, h2, h3]
  · intro kv hkv
    simp [get_project_settings, h1, h2, h3] at hkv
    rcases hkv with rfl | rfl
    · right; rfl
    · left; rfl

/-- Witness for C4 at the concrete unrecognized project id `webapp`. -/
theorem c4_project_settings_template_witness :
    ('/' ∉ "webapp".data)
    ∧ pyLower "webapp" ≠ "frontend" ∧ pyLower "webapp" ≠ "backend"
    ∧ pyLower "webapp" ≠ "mobile"
    ∧ (readResource ("config://project/" ++ "webapp" ++ "/settings")
        = .ok (jdump (get_project_settings "webapp"))
      ∧ get_project_settings "webapp"
        = [("framework", .s "Unknown"),
           ("note", .s ("No configuration found for project \x27" ++ "webapp" ++ "\x27"))]
      ∧ ∀ kv ∈ get_project_settings "webapp",
          kv.1 = "note" ∨ kv.2 = JVal.s "Unknown") :=
  ⟨by decide, by decide, by decide, by decide,
    c4_project_settings_template.2.2 "webapp" (by decide) (by decide) (by decide)
      (by decide)⟩

/-- C5: every URI that equals none of the three static catalog URIs and
matches neither templated shape (the user-preferences prefix/suffix pair
or the project-settings prefix/suffix pair, with at least four
`/`-separated parts) fails with `NotFound` carrying that URI; the embedded
handler is a pure function returning only this error value, so the failed
call produces no partial result and changes no state. -/
theorem c5_unknown_uri_not_found (uri : String)
    (h1 : uri ≠ "docs://company/handbook")
    (h2 : uri ≠ "docs://company/coding-standards")
    (h3 : uri ≠ "docs://api/endpoints")
    (h4 : ¬(strStartsWith uri "config://user/" = true
        ∧ strEndsWith uri "/preferences" = true ∧ 4 ≤ (splitOnSlash uri).length))
    (h5 : ¬(strStartsWith uri "config://project/" = true
        ∧ strEndsWith uri "/settings" = true ∧ 4 ≤ (splitOnSlash uri).length)) :
    readResource uri = .error (.notFound uri) := by
  unfold readResource
  rw [if_neg h1, if_neg h2, if_neg h3]
  by_cases hu : (strStartsWith uri "config://user/"
      && strEndsWith uri "/preferences") = true
  · have hu2 := Bool.and_eq_true _ _ |>.mp hu
    have hlen : ¬ 4 ≤ (splitOnSlash uri).length := fun hl => h4 ⟨hu2.1, hu2.2, hl⟩
    rw [hu]
    simp only [if_true]
    rw [if_neg hlen]
  · have hu' : (strStartsWith uri "config://user/"
        && strEndsWith uri "/preferences") = false := by
      simpa using hu
    rw [hu']
    simp only [Bool.false_eq_true, if_false]
    by_cases hp : (strStartsWith uri "config://project/"
        && strEndsWith uri "/settings") = true
    · have hp2 := Bool.and_eq_true _ _ |>.mp hp
      have hlen : ¬ 4 ≤ (splitOnSlash uri).length := fun hl => h5 ⟨hp2.1, hp2.2, hl⟩
      rw [hp]
      simp only [if_true]
      rw [if_neg hlen]
    · have hp' : (strStartsWith uri "config://project/"
          && strEndsWith uri "/settings") = false := by
        simpa using hp
      rw [hp']
      simp only [Bool.false_eq_true, if_false]

/-- Witness for C5 at the concrete unknown URI `docs://nothing`. -/
theorem c5_unknown_uri_not_found_witness :
    ("docs://nothing" ≠ "docs://company/handbook")
    ∧ ("docs://nothing" ≠ "docs://company/coding-standards")
    ∧ ("docs://nothing" ≠ "docs://api/endpoints")
    ∧ (¬(strStartsWith "docs://nothing" "config://user/" = true
        ∧ strEndsWith "docs://nothing" "/preferences" = true
        ∧ 4 ≤ (splitOnSlash "docs://nothing").length))
    ∧ (¬(strStartsWith "docs://nothing" "config://project/" = true
        ∧ strEndsWith "docs://nothing" "/settings" = true
        ∧ 4 ≤ (splitOnSlash "docs://nothing").length))
    ∧ readResource "docs://nothing" = .error (.notFound "docs://nothing") :=
  ⟨by decide, by decide, by decide, by decide, by decide,
    c5_unknown_uri_not_found "docs://nothing" (by decide) (by decide) (by decide)
      (by decide) (by decide)⟩

/-- C2 counterexample: listing/read consistency fails as stated.  With
root `/data/root` containing the single file `bad.txt` whose one byte
`0xFF` is not valid UTF-8, the listing returns
`file://resources/bad.txt`, but reading that URI raises
(`read_text(encoding="utf-8")` fails with `UnicodeDecodeError`, modelled
as `decodeError`) instead of succeeding. -/
theorem c2_listing_read_counterexample :
    ((fsListResources [⟨["data", "root", "bad.txt"], [255]⟩] ["data", "root"]).map
        Resource.uri = ["file://resources/bad.txt"])
    ∧ fsReadResource [⟨["data", "root", "bad.txt"], [255]⟩] ["data", "root"]
        "file://resources/bad.txt"
      = .error (.decodeError "file://resources/bad.txt") := by
  refine ⟨by decide, by decide⟩

set_option maxRecDepth 4096 in
/-- C2 (amended): every URI returned by the static resolver's listing
reads successfully, and every URI returned by the filesystem resolver's
listing reads successfully provided each text-classified file's bytes are
valid UTF-8 (binary-classified files need no proviso). -/
theorem c2_listing_read_consistency :
    (∀ r ∈ staticResources, ∃ t, readResource r.uri = Except.ok t)
    ∧ ∀ (fs : FileSys) (root : List String), wfFs fs → pathsNodup fs →
        cleanComps root = true →
        (∀ f ∈ fs, is_text_mime_type (get_mime_type (pathString f.path)) = true →
          (utf8Decode f.bytes).isSome = true) →
        ∀ r ∈ fsListResources fs root, ∃ c, fsReadResource fs root r.uri = Except.ok c := by
  constructor
  · intro r hr
    simp only [staticResources, List.mem_cons, List.not_mem_nil, or_false] at hr
    rcases hr with rfl | rfl | rfl
    · exact ⟨handbookText, rfl⟩
    · exact ⟨codingStandardsText, by decide⟩
    · exact ⟨apiEndpointsText, by decide⟩
  · intro fs root hwf hnd hroot hdec r hr
    simp only [fsListResources, List.mem_map, List.mem_filter] at hr
    obtain ⟨f, ⟨hf, hu⟩, rfl⟩ := hr
    have hpref : listPrefB root f.path = true ∧ f.path ≠ root := by
      simpa [underRoot, Bool.and_eq_true] using hu
    have hpath : root ++ f.path.drop root.length = f.path :=
      eq_append_drop_of_prefB root f.path hpref.1
    have hrelne : f.path.drop root.length ≠ [] := by
      intro h0
      apply hpref.2
      rw [← hpath, h0, List.append_nil]
    have hfclean : cleanComps f.path = true := hwf f hf
    have hrelclean : cleanComps (f.path.drop root.length) = true := by
      rw [← hpath] at hfclean
      unfold cleanComps at hfclean ⊢
      rw [List.all_append, Bool.and_eq_true] at hfclean
      exact hfclean.2
    have huri : (mkResource root f).uri
        = "file://resources/" ++ joinComps (f.path.drop root.length) := rfl
    rw [huri, fsRead_on_join fs root (f.path.drop root.length) hroot hrelclean hrelne,
      hpath, lookupFile_self fs f hf hnd]
    by_cases ht : is_text_mime_type (get_mime_type (pathString f.path)) = true
    · obtain ⟨t, htt⟩ := Option.isSome_iff_exists.mp (hdec f hf ht)
      exact ⟨.text t, by simp [serveFile, ht, htt]⟩
    · refine ⟨.blob (b64encode f.bytes) (get_mime_type (pathString f.path)), ?_⟩
      simp only [Bool.not_eq_true] at ht
      simp [serveFile, ht]

/-- Witness for C2 (amended) at a one-file filesystem whose text file is
valid UTF-8, plus the static half. -/
theorem c2_listing_read_consistency_witness :
    (∀ r ∈ staticResources, ∃ t, readResource r.uri = Except.ok t)
    ∧ wfFs [⟨["srv", "notes.txt"], [104, 105]⟩]
    ∧ pathsNodup [⟨["srv", "notes.txt"], [104, 105]⟩]
    ∧ cleanComps ["srv"] = true
    ∧ (∀ f ∈ ([⟨["srv", "notes.txt"], [104, 105]⟩] : FileSys),
        is_text_mime_type (get_mime_type (pathString f.path)) = true →
          (utf8Decode f.bytes).isSome = true)
    ∧ ∀ r ∈ fsListResources [⟨["srv", "notes.txt"], [104, 105]⟩] ["srv"],
        ∃ c, fsReadResource [⟨["srv", "notes.txt"], [104, 105]⟩] ["srv"] r.uri
          = Except.ok c :=
  ⟨c2_listing_read_consistency.1, by decide, by decide, by decide, by decide,
    c2_listing_read_consistency.2 [⟨["srv", "notes.txt"], [104, 105]⟩] ["srv"]
      (by decide) (by decide) (by decide) (by decide)⟩

/-- C6: for a file whose detected MIME type is text-classified (starts
with `text/` or is exactly `application/json`, `application/javascript`
or `image/svg+xml` — that is exactly `is_text_mime_type`), reading its
URI returns text content equal to the file's bytes decoded as UTF-8; for
every other MIME type it returns binary content tagged with that MIME
type whose base64 data decodes back to exactly the file's bytes. -/
theorem c6_content_classification (fs : FileSys) (root rel : List String)
    (f : FsFile) (hroot : cleanComps root = true) (hrel : cleanComps rel = true)
    (hne : rel ≠ []) (hlook : lookupFile fs (root ++ rel) = some f) :
    (is_text_mime_type (get_mime_type (pathString f.path)) = true →
      ∀ t, utf8Decode f.bytes = some t →
        fsReadResource fs root ("file://resources/" ++ joinComps rel)
          = .ok (.text t))
    ∧ (is_text_mime_type (get_mime_type (pathString f.path)) = false →
        (∀ b ∈ f.bytes, b < 256) →
        fsReadResource fs root ("file://resources/" ++ joinComps rel)
          = .ok (.blob (b64encode f.bytes) (get_mime_type (pathString f.path)))
        ∧ b64decode (b64encode f.bytes) = some f.bytes) := by
  have hmain := fsRead_on_join fs root rel hroot hrel hne
  rw [hlook] at hmain
  constructor
  · intro ht t htt
    rw [hmain]
    simp [serveFile, ht, htt]
  · intro ht hb
    refine ⟨?_, b64_roundtrip f.bytes hb⟩
    rw [hmain]
    simp [serveFile, ht]

/-- Witness for C6 at a one-file filesystem holding a binary `logo.png`
(and checking the text branch vacuously holds there). -/
theorem c6_content_classification_witness :
    (cleanComps ["srv"] = true) ∧ (cleanComps ["logo.png"] = true)
    ∧ (["logo.png"] ≠ ([] : List String))
    ∧ (lookupFile [⟨["srv", "logo.png"], [137, 80]⟩] (["srv"] ++ ["logo.png"])
        = some ⟨["srv", "logo.png"], [137, 80]⟩)
    ∧ ((is_text_mime_type (get_mime_type (pathString ["srv", "logo.png"])) = true →
        ∀ t, utf8Decode [137, 80] = some t →
          fsReadResource [⟨["srv", "logo.png"], [137, 80]⟩] ["srv"]
              ("file://resources/" ++ joinComps ["logo.png"])
            = .ok (.text t))
      ∧ (is_text_mime_type (get_mime_type (pathString ["srv", "logo.png"])) = false →
          (∀ b ∈ [137, 80], b < 256) →
          fsReadResource [⟨["srv", "logo.png"], [137, 80]⟩] ["srv"]
              ("file://resources/" ++ joinComps ["logo.png"])
            = .ok (.blob (b64encode [137, 80])
                (get_mime_type (pathString ["srv", "logo.png"])))
          ∧ b64decode (b64encode [137, 80]) = some [137, 80])) :=
  ⟨by decide, by decide, by decide, by decide,
    c6_content_classification [⟨["srv", "logo.png"], [137, 80]⟩] ["srv"]
      ["logo.png"] ⟨["srv", "logo.png"], [137, 80]⟩
      (by decide) (by decide) (by decide) (by decide)⟩

/-- C7: every regular file below the root appears in the filesystem
listing as exactly one resource whose URI prefixes `file://resources/`
onto the `/`-joined root-relative path, whose MIME type comes from the
fixed extension table applied to the file's path, and whose description
is the `File: ... (size)` string using the binary-unit size formatter. -/
theorem c7_fs_listing (fs : FileSys) (root : List String) (f : FsFile)
    (hwf : wfFs fs) (hnd : pathsNodup fs) (hf : f ∈ fs)
    (hu : underRoot root f.path = true) :
    (∃ r ∈ fsListResources fs root,
      r.uri = "file://resources/" ++ joinComps (f.path.drop root.length)
      ∧ r.mimeType = get_mime_type (pathString f.path)
      ∧ r.description = "File: " ++ joinComps (f.path.drop root.length) ++ " ("
          ++ format_file_size f.bytes.length ++ ")")
    ∧ ((fsListResources fs root).filter
        (fun r => decide (r.uri
          = "file://resources/" ++ joinComps (f.path.drop root.length)))).length
      = 1 := by
  have hfsnd : fs.Nodup := hnd.of_map FsFile.path
  have hinj := List.inj_on_of_nodup_map hnd
  have relprops : ∀ g : FsFile, g ∈ fs → underRoot root g.path = true →
      root ++ g.path.drop root.length = g.path
      ∧ g.path.drop root.length ≠ []
      ∧ cleanComps (g.path.drop root.length) = true
      ∧ ∀ c ∈ g.path.drop root.length, '/' ∉ c.data := by
    intro g hg hug
    have hpref : listPrefB root g.path = true ∧ g.path ≠ root := by
      simpa [underRoot, Bool.and_eq_true] using hug
    have hpath : root ++ g.path.drop root.length = g.path :=
      eq_append_drop_of_prefB root g.path hpref.1
    have hrelne : g.path.drop root.length ≠ [] := by
      intro h0
      apply hpref.2
      rw [← hpath, h0, List.append_nil]
    have hgclean : cleanComps g.path = true := hwf g hg
    have hrelclean : cleanComps (g.path.drop root.length) = true := by
      rw [← hpath] at hgclean
      unfold cleanComps at hgclean ⊢
      rw [List.all_append, Bool.and_eq_true] at hgclean
      exact hgclean.2
    exact ⟨hpath, hrelne, hrelclean, fun c hc =>
      (cleanComp_spec c (cleanComps_mem _ hrelclean c hc)).2.2.2⟩
  constructor
  · refine ⟨mkResource root f, ?_, rfl, rfl, rfl⟩
    simp only [fsListResources, List.mem_map]
    exact ⟨f, List.mem_filter.mpr ⟨hf, hu⟩, rfl⟩
  · rw [← List.countP_eq_length_filter]
    unfold fsListResources
    rw [List.countP_map, List.countP_filter]
    apply countP_eq_one_of_unique _ fs f hf ?_ hfsnd ?_
    · simp only [Function.comp_apply, Bool.and_eq_true, decide_eq_true_eq]
      exact ⟨rfl, hu⟩
    · intro g hg hpg
      simp only [Function.comp_apply, Bool.and_eq_true, decide_eq_true_eq] at hpg
      obtain ⟨hguri, hgu⟩ := hpg
      obtain ⟨hgpath, hgne, hgclean, hgslash⟩ := relprops g hg hgu
      obtain ⟨hfpath, hfne, hfclean, hfslash⟩ := relprops f hf hu
      have hjoin : joinComps (g.path.drop root.length)
          = joinComps (f.path.drop root.length) := by
        have hguri2 : "file://resources/" ++ joinComps (g.path.drop root.length)
            = "file://resources/" ++ joinComps (f.path.drop root.length) := hguri
        have := congrArg String.data hguri2
        rw [String.data_append, String.data_append] at this
        have h2 := List.append_cancel_left this
        calc joinComps (g.path.drop root.length)
            = String.mk (joinComps (g.path.drop root.length)).data :=
              (mk_data _).symm
          _ = String.mk (joinComps (f.path.drop root.length)).data := by rw [h2]
          _ = joinComps (f.path.drop root.length) := mk_data _
      have hrel_eq : g.path.drop root.length = f.path.drop root.length := by
        calc g.path.drop root.length
            = splitOnSlash (joinComps (g.path.drop root.length)) :=
              (splitOnSlash_join _ hgne hgslash).symm
          _ = splitOnSlash (joinComps (f.path.drop root.length)) := by rw [hjoin]
          _ = f.path.drop root.length := splitOnSlash_join _ hfne hfslash
      have hpatheq : g.path = f.path := by
        rw [← hgpath, ← hfpath, hrel_eq]
      exact hinj hg hf hpatheq

/-- Witness for C7 at a root holding `notes.txt`, which in particular
yields URI `file://resources/notes.txt` with MIME `text/plain`. -/
theorem c7_fs_listing_witness :
    wfFs [⟨["res", "notes.txt"], [104, 105]⟩]
    ∧ pathsNodup [⟨["res", "notes.txt"], [104, 105]⟩]
    ∧ (⟨["res", "notes.txt"], [104, 105]⟩ : FsFile)
        ∈ ([⟨["res", "notes.txt"], [104, 105]⟩] : FileSys)
    ∧ underRoot ["res"] ["res", "notes.txt"] = true
    ∧ ((∃ r ∈ fsListResources [⟨["res", "notes.txt"], [104, 105]⟩] ["res"],
        r.uri = "file://resources/"
          ++ joinComps (["res", "notes.txt"].drop ["res"].length)
        ∧ r.mimeType = get_mime_type (pathString ["res", "notes.txt"])
        ∧ r.description = "File: "
            ++ joinComps (["res", "notes.txt"].drop ["res"].length) ++ " ("
            ++ format_file_size ([104, 105] : List Nat).length ++ ")")
      ∧ ((fsListResources [⟨["res", "notes.txt"], [104, 105]⟩] ["res"]).filter
          (fun r => decide (r.uri = "file://resources/"
            ++ joinComps (["res", "notes.txt"].drop ["res"].length)))).length = 1)
    ∧ get_mime_type (pathString ["res", "notes.txt"]) = "text/plain"
    ∧ "file://resources/" ++ joinComps (["res", "notes.txt"].drop ["res"].length)
      = "file://resources/notes.txt" :=
  ⟨by decide, by decide, by decide, by decide,
    c7_fs_listing [⟨["res", "notes.txt"], [104, 105]⟩] ["res"]
      ⟨["res", "notes.txt"], [104, 105]⟩ (by decide) (by decide) (by decide)
      (by decide),
    by decide, by decide⟩

/-- C8: the size formatter renders `0` as `0.0 B`, `1536` as `1.5 KB` and
`1048576` as `1.0 MB`; and for every size the output is one decimal place
followed by the suffix B/KB/MB/GB whose index counts how many times the
value could be divided by 1024 while staying at least 1024 with a larger
suffix remaining. -/
theorem c8_format_file_size :
    format_file_size 0 = "0.0 B"
    ∧ format_file_size 1536 = "1.5 KB"
    ∧ format_file_size 1048576 = "1.0 MB"
    ∧ ∀ n : Nat, ∃ k w d, k ≤ 3
        ∧ (k < 3 → n < 1024 ^ (k + 1))
        ∧ (∀ j, j < k → 1024 ^ (j + 1) ≤ n)
        ∧ d < 10
        ∧ format_file_size n = Nat.repr w ++ "." ++ Nat.repr d ++ " "
            ++ (["B", "KB", "MB", "GB"].getD k "B") := by
  refine ⟨by decide, by decide, by decide, ?_⟩
  intro n
  refine ⟨sizeLoop 3 n 0,
    (let dd := 2 ^ (10 * sizeLoop 3 n 0);
     let q0 := 10 * n / dd;
     let r := 10 * n % dd;
     if dd < 2 * r ∨ (2 * r = dd ∧ q0 % 2 = 1) then q0 + 1 else q0) / 10,
    (let dd := 2 ^ (10 * sizeLoop 3 n 0);
     let q0 := 10 * n / dd;
     let r := 10 * n % dd;
     if dd < 2 * r ∨ (2 * r = dd ∧ q0 % 2 = 1) then q0 + 1 else q0) % 10,
    ?_, ?_, ?_, ?_, rfl⟩
  · rw [sizeLoop_char n]
    split_ifs <;> omega
  · rw [sizeLoop_char n]
    split_ifs with ha hb hc2
    · intro _
      norm_num
      omega
    · intro _
      norm_num at hb ⊢
      omega
    · intro _
      norm_num at hc2 ⊢
      omega
    · intro h
      omega
  · rw [sizeLoop_char n]
    split_ifs with ha hb hc2
    · intro j hj
      omega
    · intro j hj
      interval_cases j
      norm_num at ha ⊢
      omega
    · intro j hj
      interval_cases j
      · norm_num at ha ⊢
        omega
      · norm_num at hb ⊢
        omega
    · intro j hj
      interval_cases j
      · norm_num at ha ⊢
        omega
      · norm_num at hb ⊢
        omega
      · norm_num at hc2 ⊢
        omega
  · exact Nat.mod_lt _ (by norm_num)

/-- Witness for C8's universal clause at the concrete size 2048. -/
theorem c8_format_file_size_witness :
    ∃ k w d, k ≤ 3
      ∧ (k < 3 → 2048 < 1024 ^ (k + 1))
      ∧ (∀ j, j < k → 1024 ^ (j + 1) ≤ 2048)
      ∧ d < 10
      ∧ format_file_size 2048 = Nat.repr w ++ "." ++ Nat.repr d ++ " "
          ++ (["B", "KB", "MB", "GB"].getD k "B") :=
  c8_format_file_size.2.2.2 2048

/-- C9: resolution by the static/templated resolver is deterministic
within a session — two `read` calls carrying the same URI string, with no
intervening catalog change (the catalog is fixed at process start and the
handler holds no mutable state), return identical results at their
positions in the session. -/
theorem c9_read_determinism (uris : List String) (i j : Nat)
    (hi : i < uris.length) (hj : j < uris.length)
    (heq : uris.getD i "" = uris.getD j "") :
    (readSession uris).getD i (.error (.notFound ""))
      = (readSession uris).getD j (.error (.notFound "")) := by
  unfold readSession
  rw [List.getD_eq_getElem?_getD, List.getD_eq_getElem?_getD,
    List.getElem?_map, List.getElem?_map,
    List.getElem?_eq_getElem hi, List.getElem?_eq_getElem hj]
  rw [List.getD_eq_getElem?_getD, List.getD_eq_getElem?_getD,
    List.getElem?_eq_getElem hi, List.getElem?_eq_getElem hj] at heq
  simp at heq ⊢
  rw [heq]

/-- Witness for C9 on a concrete three-call session repeating a URI. -/
theorem c9_read_determinism_witness :
    (0 < (["config://user/alice/preferences", "docs://nope",
        "config://user/alice/preferences"] : List String).length)
    ∧ (2 < (["config://user/alice/preferences", "docs://nope",
        "config://user/alice/preferences"] : List String).length)
    ∧ ((["config://user/alice/preferences", "docs://nope",
        "config://user/alice/preferences"] : List String).getD 0 ""
      = (["config://user/alice/preferences", "docs://nope",
        "config://user/alice/preferences"] : List String).getD 2 "")
    ∧ (readSession ["config://user/alice/preferences", "docs://nope",
        "config://user/alice/preferences"]).getD 0 (.error (.notFound ""))
      = (readSession ["config://user/alice/preferences", "docs://nope",
        "config://user/alice/preferences"]).getD 2 (.error (.notFound "")) :=
  ⟨by decide, by decide, by decide,
    c9_read_determinism ["config://user/alice/preferences", "docs://nope",
      "config://user/alice/preferences"] 0 2 (by decide) (by decide) (by decide)⟩

end MCPResources
